import Mathlib

/-!
Shallow embedding of the CompressionLab codec/container subsystem
(`src/image.py`, `src/analysis.py`, `src/compression_codecs/identity.py`,
`src/compression_codecs/registry.py`) together with proofs settling the
spec claims about it.

Conventions of the embedding:
* numpy `uint8` buffers are flat row-major `List Nat` together with a
  `shape : List Nat` and a `dtype : String`, mirroring `np.ndarray`;
* Python exceptions become `Except` results, raised at the same program
  points and in the same order as in the source;
* Python floats are modelled exactly: rationals for arithmetic that the
  source performs on pixel data and sizes, `Real.logb` for `np.log10`;
* JSON metadata dictionaries are association lists of string keys and
  `JVal` values covering the value shapes the repository stores in them
  (ints, strings, lists of ints).
-/

instance {ε α : Type} [DecidableEq ε] [DecidableEq α] : DecidableEq (Except ε α) := fun a b =>
  match a, b with
  | .error e1, .error e2 =>
    if h : e1 = e2 then .isTrue (by rw [h]) else .isFalse (by intro hc; cases hc; exact h rfl)
  | .ok v1, .ok v2 =>
    if h : v1 = v2 then .isTrue (by rw [h]) else .isFalse (by intro hc; cases hc; exact h rfl)
  | .error _, .ok _ => .isFalse (by intro hc; cases hc)
  | .ok _, .error _ => .isFalse (by intro hc; cases hc)

/-- Truth value of Python `not s.strip()`: `s` consists of whitespace only. -/
def isBlank (s : String) : Bool := s.data.all Char.isWhitespace

/-- Length in bytes of the UTF-8 encoding of `s`, i.e. `len(s.encode("utf-8"))`. -/
def utf8Len (s : String) : Nat := (s.data.map Char.utf8Size).sum

/-- JSON values storable in a `compression_data` dictionary, covering the
value shapes the repository actually stores (`"shape": [H, W, 3]`,
`"dtype": "uint8"`, numeric entries). -/
inductive JVal where
  | num : Int → JVal
  | str : String → JVal
  | lst : List Int → JVal
deriving DecidableEq, Repr

/-- A Python dict with string keys, as an association list (insertion order). -/
def Meta := List (String × JVal)
deriving DecidableEq

/-- Python `d[key]` on a dict: first (only) binding of `key`. -/
def lookupMeta : Meta → String → Option JVal
  | [], _ => none
  | (k, v) :: rest, key => if k = key then some v else lookupMeta rest key

/-- Key order used by `json.dumps(..., sort_keys=True)`. -/
def metaKeyLe (p q : String × JVal) : Prop := p.1 ≤ q.1

instance : DecidableRel metaKeyLe := fun p q => inferInstanceAs (Decidable (p.1 ≤ q.1))

instance : IsTotal (String × JVal) metaKeyLe := ⟨fun p q => le_total p.1 q.1⟩

instance : IsTrans (String × JVal) metaKeyLe := ⟨fun _ _ _ => le_trans⟩

/-- Strict key order; used to show the key-sorted form is unique. -/
def metaKeyLt (p q : String × JVal) : Prop := p.1 < q.1

instance : IsAntisymm (String × JVal) metaKeyLt :=
  ⟨fun _ _ h1 h2 => absurd (lt_trans h1 h2) (lt_irrefl _)⟩

/-- Sort the dict items by key, as `sort_keys=True` does. -/
def sortPairs (m : Meta) : Meta := List.insertionSort metaKeyLe m

/-- Serialization of a single JSON value with separators `(",", ":")`.
String escaping is not modelled; the repository stores no quotes,
backslashes or control characters inside metadata strings. -/
def JVal.ser : JVal → String
  | .num n => toString n
  | .str s => "\"" ++ s ++ "\""
  | .lst xs => "[" ++ String.intercalate "," (xs.map toString) ++ "]"

/-- Canonical serialization of a metadata dict:
`json.dumps(m, sort_keys=True, separators=(",", ":"))`. -/
def serMeta (m : Meta) : String :=
  "\x7b" ++ String.intercalate ","
    ((sortPairs m).map (fun kv => "\"" ++ kv.1 ++ "\":" ++ kv.2.ser)) ++ "\x7d"

/-- An `np.ndarray`: shape, dtype name, and flat row-major element data.
For dtype `uint8` each element of `data` is one byte. -/
structure NDArray where
  shape : List Nat
  dtype : String
  data : List Nat
deriving DecidableEq, Repr

/-- Well-formedness facts numpy guarantees for a `uint8` array of shape
`(H, W, 3)`: element count matches the shape and every element is a byte. -/
def NDArray.wf8 (p : NDArray) : Prop :=
  p.data.length = p.shape.prod ∧ ∀ x ∈ p.data, x < 256

/-- `RawImage` container (already past `__post_init__`). -/
structure RawImage where
  pixels : NDArray
  image_name : String
deriving DecidableEq, Repr

/-- Embedding of `RawImage.__post_init__` (src/image.py lines 111-129):
validates the name, the dtype and the `(H, W, 3)` shape, in source order.
There is no check on the magnitude of `H` or `W`.  The deep copy and the
C-contiguity normalisation are identities in this value model. -/
def mkRawImage (pixels : NDArray) (image_name : String) : Except String RawImage :=
  if isBlank image_name then
    .error "image_name must be a non-empty string"
  else if pixels.dtype ≠ "uint8" then
    .error "pixels dtype must be uint8"
  else if pixels.shape.length ≠ 3 ∨ pixels.shape.getD 2 0 ≠ 3 then
    .error "pixels must have shape (H, W, 3)"
  else
    .ok ⟨pixels, image_name⟩

/-- `RawImage.height` property. -/
def RawImage.height (r : RawImage) : Nat := r.pixels.shape.getD 0 0

/-- `RawImage.width` property. -/
def RawImage.width (r : RawImage) : Nat := r.pixels.shape.getD 1 0

/-- `CompressedImage` container (already past `__post_init__`). -/
structure CompressedImage where
  image_id : String
  codec : String
  payload : List Nat
  compression_data : Meta
deriving DecidableEq

/-- Embedding of `CompressedImage.__post_init__` (src/image.py lines 236-269):
validates identifiers and the payload in source order.  Every `Meta` value
is a dict and is JSON-serializable by construction of `JVal`, so the last
two checks of the source never fire in the model. -/
def mkCompressedImage (image_id codec : String) (payload : List Nat) (compression_data : Meta) :
    Except String CompressedImage :=
  if isBlank image_id then
    .error "image_id must be a non-empty string"
  else if isBlank codec then
    .error "codec must be a non-empty string"
  else if payload.length = 0 then
    .error "payload must be non-empty"
  else
    .ok ⟨image_id, codec, payload, compression_data⟩

/-- `CompressedImage.payload_size_bytes` property. -/
def CompressedImage.payload_size_bytes (c : CompressedImage) : Nat :=
  c.payload.length

/-- `CompressedImage.compression_data_size_bytes` property: UTF-8 byte length
of the canonical JSON encoding. -/
def CompressedImage.compression_data_size_bytes (c : CompressedImage) : Nat :=
  utf8Len (serMeta c.compression_data)

/-- `CompressedImage.total_size_bytes` property. -/
def CompressedImage.total_size_bytes (c : CompressedImage) : Nat :=
  c.payload_size_bytes + c.compression_data_size_bytes

/-- `EncodeRequest` (src/compression_codecs/base.py): image plus parameter bag. -/
structure EncodeRequest where
  image : RawImage
  params : Meta

namespace IdentityCodec

/-- `IdentityCodec.name` property. -/
def name : String := "identity"

/-- Embedding of `IdentityCodec.encode` (src/compression_codecs/identity.py
lines 21-37): payload is the raw pixel bytes (`pixels.tobytes()` of a
C-contiguous array is the flat data), metadata records shape and dtype, and
the `CompressedImage` constructor validates the result. -/
def encode (req : EncodeRequest) : Except String CompressedImage :=
  let pixels := req.image.pixels
  let payload := pixels.data
  let compression_data : Meta :=
    [("shape", .lst (pixels.shape.map Int.ofNat)), ("dtype", .str "uint8")]
  mkCompressedImage req.image.image_name name payload compression_data

/-- Errors `IdentityCodec.decode` can surface.  The Python body has no
error handling of its own, so each constructor records which low-level
exception escapes: `keyError` a dict `KeyError`, `dtypeError` a numpy
`TypeError` from `np.dtype`, `valueError` a `TypeError`/`ValueError` from
`tuple()`/`np.frombuffer`/`reshape`, `validationError` a `RawImage`
constructor error.  No constructor is a codec-level descriptive error;
none exists in the source. -/
inductive DecodeErr where
  | keyError : String → DecodeErr
  | dtypeError : String → DecodeErr
  | valueError : String → DecodeErr
  | validationError : String → DecodeErr
deriving DecidableEq, Repr

/-- Embedding of `IdentityCodec.decode` (src/compression_codecs/identity.py
lines 39-50): reads `shape` and `dtype` out of the metadata, reinterprets
the payload bytes, reshapes, and builds a `RawImage` named
`image_id + "__identity__decoded"`.  Only the `uint8` dtype path is
modelled (the only dtype the codec writes); `reshape` succeeds exactly
when the element count matches the shape product, shapes with negative
entries are not modelled. -/
def decode (blob : CompressedImage) : Except DecodeErr RawImage :=
  match lookupMeta blob.compression_data "shape" with
  | none => .error (.keyError "shape")
  | some shapeVal =>
    match lookupMeta blob.compression_data "dtype" with
    | none => .error (.keyError "dtype")
    | some dtypeVal =>
      match shapeVal with
      | .lst shapeInts =>
        match dtypeVal with
        | .str dtypeStr =>
          if dtypeStr ≠ "uint8" then
            .error (.dtypeError dtypeStr)
          else if blob.payload.length ≠ (shapeInts.map Int.toNat).prod then
            .error (.valueError "cannot reshape array")
          else
            match mkRawImage ⟨shapeInts.map Int.toNat, "uint8", blob.payload⟩
                (blob.image_id ++ "__identity__decoded") with
            | .error e => .error (.validationError e)
            | .ok img => .ok img
        | _ => .error (.dtypeError "not a dtype string")
      | _ => .error (.valueError "shape is not a sequence")

end IdentityCodec

/-- A registered codec, reduced to the one datum the registry inspects. -/
structure Codec where
  name : String
deriving DecidableEq

/-- `CodecRegistry` state: the `_codecs` dict. -/
structure CodecRegistry where
  codecs : List (String × Codec)
deriving DecidableEq

/-- Python dict lookup in `_codecs`. -/
def lookupCodec : List (String × Codec) → String → Option Codec
  | [], _ => none
  | (k, v) :: rest, key => if k = key then some v else lookupCodec rest key

/-- `codec.name.strip().lower()`: the registry's name normalisation, on the
character sequence (whitespace stripped from both ends, then lowercased). -/
def pyNormalize (s : String) : String :=
  ⟨(((s.data.dropWhile Char.isWhitespace).reverse.dropWhile
      Char.isWhitespace).reverse).map Char.toLower⟩

/-- Embedding of `CodecRegistry.register` (src/compression_codecs/registry.py
lines 72-82): normalises the name, rejects empty and duplicate names, else
inserts. -/
def CodecRegistry.register (r : CodecRegistry) (c : Codec) : Except String CodecRegistry :=
  let nm := pyNormalize c.name
  if nm = "" then
    .error "codec.name must be non-empty"
  else if (lookupCodec r.codecs nm).isSome then
    .error ("Codec " ++ nm ++ " already registered")
  else
    .ok ⟨r.codecs ++ [(nm, c)]⟩

/-- Embedding of `bits_per_pixel` (src/analysis.py lines 20-63).  Shape
components are `Int` (Python ints); the final division is exact rational
arithmetic standing for Python float division. -/
def bits_per_pixel (blob : CompressedImage) (image_shape : Option (Int × Int × Int))
    (raw : Option RawImage) : Except String ℚ :=
  let finish : Int → Int → Except String ℚ := fun h w =>
    if h ≤ 0 ∨ w ≤ 0 then
      .error "Invalid image dimensions for bpp"
    else
      .ok ((blob.total_size_bytes * 8 : ℚ) / ((h : ℚ) * (w : ℚ)))
  match raw with
  | some r =>
    match r.pixels.shape with
    | [h, w, _] => finish (Int.ofNat h) (Int.ofNat w)
    | _ => .error "cannot unpack raw.shape"
  | none =>
    match image_shape with
    | some (h, w, _) => finish h w
    | none =>
      match lookupMeta blob.compression_data "shape" with
      | some (.lst s) =>
        if s.length ≥ 2 then
          finish (s.getD 0 0) (s.getD 1 0)
        else
          .error "compression_data shape exists but is not a valid (H,W,...) sequence"
      | some _ => .error "compression_data shape exists but is not a valid (H,W,...) sequence"
      | none => .error "bits_per_pixel requires raw=RawImage or image_shape=(H,W,C)"

/-- Embedding of `mse` (src/analysis.py lines 70-83): mean over all pixels
and channels of the squared difference, after the shape check.  The
`float32` casts are exact on byte values; the mean is the exact rational. -/
def mse (a b : RawImage) : Except String ℚ :=
  if a.pixels.shape ≠ b.pixels.shape then
    .error "Shape mismatch"
  else
    .ok ((List.zipWith (fun x y => ((x : ℚ) - (y : ℚ)) ^ 2) a.pixels.data b.pixels.data).sum
      / (a.pixels.data.length : ℚ))

/-- Flat row-major `(H, W, 3)` data grouped into per-pixel channel triples. -/
def chunk3 : List Nat → List (List Nat)
  | a :: b :: c :: rest => [a, b, c] :: chunk3 rest
  | _ => []

/-- Squared L2 channel distance of one pixel pair: `_pixel_error_l2` squared
(src/analysis.py lines 241-246 computes its square root). -/
def pixelErrSq (p q : List Nat) : ℚ :=
  (List.zipWith (fun x y => ((x : ℚ) - (y : ℚ)) ^ 2) p q).sum

/-- Embedding of `changed_pixel_ratio` (src/analysis.py lines 86-96).  The
source marks a pixel changed when `sqrt s > threshold`; since `s ≥ 0`,
that comparison holds iff `threshold < 0 ∨ threshold ^ 2 < s`, which is
the decidable rational form used here (`sqrt_comparison_faithful` below
proves the equivalence).  The mean of the boolean mask is the changed
count over the pixel count. -/
def changed_pixel_ratio (a b : RawImage) (threshold : ℚ) : Except String ℚ :=
  if a.pixels.shape ≠ b.pixels.shape then
    .error "Shape mismatch"
  else
    .ok (((List.zipWith
        (fun p q => decide (threshold < 0 ∨ threshold ^ 2 < pixelErrSq p q))
        (chunk3 a.pixels.data) (chunk3 b.pixels.data)).count true : ℚ) /
      ((List.zipWith
        (fun p q => decide (threshold < 0 ∨ threshold ^ 2 < pixelErrSq p q))
        (chunk3 a.pixels.data) (chunk3 b.pixels.data)).length : ℚ))

/-- Stated from the claim's words, for comparison with
`changed_pixel_ratio`: the number of pixel positions at which two images
differ in at least one channel. -/
def diffPixelCount (a b : RawImage) : Nat :=
  (List.zipWith (fun p q => decide (p ≠ q))
    (chunk3 a.pixels.data) (chunk3 b.pixels.data)).count true

/-- Result of `psnr`: `float("inf")` or a finite float value. -/
inductive PsnrVal where
  | posInf : PsnrVal
  | val : ℝ → PsnrVal

/-- Embedding of `psnr` (src/analysis.py lines 122-136): `+inf` when the
MSE is exactly zero, else `20·log10(data_range) − 10·log10(mse)`. -/
noncomputable def psnr (a b : RawImage) (data_range : ℚ) : Except String PsnrVal :=
  match mse a b with
  | .error e => .error e
  | .ok m =>
    if m = 0 then
      .ok .posInf
    else
      .ok (.val (20 * Real.logb 10 (data_range : ℝ) - 10 * Real.logb 10 (m : ℝ)))

/-! ### Shared lemmas about the embedding -/

theorem isBlank_append (a b : String) : isBlank (a ++ b) = (isBlank a && isBlank b) := by
  simp [isBlank, String.data_append, List.all_append]

theorem utf8Len_append (a b : String) : utf8Len (a ++ b) = utf8Len a + utf8Len b := by
  simp [utf8Len, String.data_append]

theorem mkRawImage_ok {p : NDArray} {nm : String} {r : RawImage}
    (h : mkRawImage p nm = .ok r) : r = ⟨p, nm⟩ := by
  unfold mkRawImage at h
  split at h
  · exact absurd h (by simp)
  · split at h
    · exact absurd h (by simp)
    · split at h
      · exact absurd h (by simp)
      · cases h
        rfl

theorem mkCompressedImage_ok {i c : String} {p : List Nat} {m : Meta} {blob : CompressedImage}
    (h : mkCompressedImage i c p m = .ok blob) : blob = ⟨i, c, p, m⟩ := by
  unfold mkCompressedImage at h
  split at h
  · exact absurd h (by simp)
  · split at h
    · exact absurd h (by simp)
    · split at h
      · exact absurd h (by simp)
      · cases h
        rfl

theorem two_le_utf8Len_serMeta (m : Meta) : 2 ≤ utf8Len (serMeta m) := by
  have h : serMeta m =
      "\x7b" ++ (String.intercalate ","
        ((sortPairs m).map (fun kv => "\"" ++ kv.1 ++ "\":" ++ kv.2.ser)) ++ "\x7d") := by
    rw [serMeta, String.append_assoc]
  rw [h, utf8Len_append, utf8Len_append]
  have h1 : utf8Len "\x7b" = 1 := by decide
  have h2 : utf8Len "\x7d" = 1 := by decide
  omega

/-! ### C2 -/

/-- C2 counterexample: a `uint8` buffer of shape `(0, 5, 3)` (zero height)
with a non-blank name is accepted by `RawImage.__post_init__` — no
validation error is raised, contradicting the claim that construction
with `H = 0` fails. -/
theorem rawImage_zero_height_accepted :
    mkRawImage ⟨[0, 5, 3], "uint8", []⟩ "img" = .ok ⟨⟨[0, 5, 3], "uint8", []⟩, "img"⟩ := by
  decide

/-- C2 (amended): `RawImage` construction validates only the name, the
dtype and the `(H, W, 3)` shape pattern; it performs no positivity check,
so buffers with `H = 0` or `W = 0` construct successfully and such
instances are observable. -/
theorem rawImage_construction_no_dimension_check (h w : Nat) (d : List Nat) (nm : String)
    (hname : isBlank nm = false) :
    mkRawImage ⟨[h, w, 3], "uint8", d⟩ nm = .ok ⟨⟨[h, w, 3], "uint8", d⟩, nm⟩ := by
  unfold mkRawImage
  rw [if_neg (by simp [hname]), if_neg (by simp), if_neg (by simp)]

/-- C2 amended-claim witness: zero-width instance observable. -/
theorem rawImage_construction_no_dimension_check_witness :
    isBlank "img" = false ∧
      mkRawImage ⟨[4, 0, 3], "uint8", []⟩ "img" = .ok ⟨⟨[4, 0, 3], "uint8", []⟩, "img"⟩ :=
  ⟨by decide, rawImage_construction_no_dimension_check 4 0 [] "img" (by decide)⟩

/-! ### C10 -/

/-- C10: every `RawImage` returned by `IdentityCodec.decode` is named
`blob.image_id + "__identity__decoded"`, which in particular differs from
`blob.image_id`, so the round trip never preserves the original name. -/
theorem identity_decode_output_name (blob : CompressedImage) (img : RawImage)
    (h : IdentityCodec.decode blob = .ok img) :
    img.image_name = blob.image_id ++ "__identity__decoded" ∧
      img.image_name ≠ blob.image_id := by
  have hname : img.image_name = blob.image_id ++ "__identity__decoded" := by
    unfold IdentityCodec.decode at h
    split at h
    · exact Except.noConfusion h
    · split at h
      · exact Except.noConfusion h
      · split at h
        · split at h
          · split at h
            · exact Except.noConfusion h
            · split at h
              · exact Except.noConfusion h
              · split at h
                · exact Except.noConfusion h
                · rename_i heq
                  injection h with h1
                  rw [← h1, mkRawImage_ok heq]
          · exact Except.noConfusion h
        · exact Except.noConfusion h
  refine ⟨hname, fun hc => ?_⟩
  rw [hname] at hc
  have hl := congrArg String.length hc
  rw [String.length_append] at hl
  simp at hl
  exact absurd hl (by decide)

/-- C10 witness: decoding a concrete one-pixel identity blob. -/
theorem identity_decode_output_name_witness :
    IdentityCodec.decode ⟨"img", "identity", [7, 8, 9],
        [("shape", .lst [1, 1, 3]), ("dtype", .str "uint8")]⟩ =
      .ok ⟨⟨[1, 1, 3], "uint8", [7, 8, 9]⟩, "img__identity__decoded"⟩ ∧
    (⟨⟨[1, 1, 3], "uint8", [7, 8, 9]⟩, "img__identity__decoded"⟩ : RawImage).image_name ≠
      (⟨"img", "identity", [7, 8, 9],
        [("shape", .lst [1, 1, 3]), ("dtype", .str "uint8")]⟩ : CompressedImage).image_id :=
  ⟨by decide,
    (identity_decode_output_name
      ⟨"img", "identity", [7, 8, 9], [("shape", .lst [1, 1, 3]), ("dtype", .str "uint8")]⟩
      ⟨⟨[1, 1, 3], "uint8", [7, 8, 9]⟩, "img__identity__decoded"⟩ (by decide)).2⟩

/-! ### C9 -/

/-- C9: for every successfully constructed `CompressedImage`,
`total_size_bytes` is the sum of the payload size and the canonical
metadata size, the metadata (at least `"\x7b\x7d"`) contributes at least 2
bytes, so the total strictly exceeds the payload size. -/
theorem compressed_size_accounting (i c : String) (p : List Nat) (m : Meta)
    (blob : CompressedImage) (h : mkCompressedImage i c p m = .ok blob) :
    blob.total_size_bytes = blob.payload_size_bytes + blob.compression_data_size_bytes ∧
      blob.payload.length + 2 ≤ blob.total_size_bytes ∧
      blob.payload_size_bytes < blob.total_size_bytes := by
  have hb := mkCompressedImage_ok h
  subst hb
  have h2 := two_le_utf8Len_serMeta m
  refine ⟨rfl, ?_, ?_⟩ <;>
    simp [CompressedImage.total_size_bytes, CompressedImage.payload_size_bytes,
      CompressedImage.compression_data_size_bytes] <;>
    omega

/-- C9 witness: a concrete one-byte-payload, empty-metadata artifact. -/
theorem compressed_size_accounting_witness :
    mkCompressedImage "i" "c" [1] [] = .ok ⟨"i", "c", [1], []⟩ ∧
      (⟨"i", "c", [1], []⟩ : CompressedImage).payload.length + 2 ≤
        (⟨"i", "c", [1], []⟩ : CompressedImage).total_size_bytes :=
  ⟨by decide, (compressed_size_accounting "i" "c" [1] [] ⟨"i", "c", [1], []⟩ (by decide)).2.1⟩

/-! ### C8 -/

/-- C8: registering a codec whose normalised (trimmed, lowercased) name is
already present in the registry returns a duplicate-registration error (an
`Except.error`, so no changed registry is produced). -/
theorem register_duplicate_rejected (r : CodecRegistry) (c : Codec)
    (h : (lookupCodec r.codecs (pyNormalize c.name)).isSome = true) :
    ∃ msg, r.register c = .error msg := by
  by_cases hnm : pyNormalize c.name = ""
  · exact ⟨"codec.name must be non-empty", by simp [CodecRegistry.register, hnm]⟩
  · exact ⟨"Codec " ++ pyNormalize c.name ++ " already registered",
      by simp [CodecRegistry.register, hnm, h]⟩

/-- C8 witness: registering `"identity"` then `"Identity"` — the second
registration normalises to the same key and is rejected. -/
theorem register_duplicate_rejected_witness :
    CodecRegistry.register ⟨[]⟩ ⟨"identity"⟩ = .ok ⟨[("identity", ⟨"identity"⟩)]⟩ ∧
      ∃ msg, CodecRegistry.register ⟨[("identity", ⟨"identity"⟩)]⟩ ⟨"Identity"⟩ = .error msg :=
  ⟨by decide,
    register_duplicate_rejected ⟨[("identity", ⟨"identity"⟩)]⟩ ⟨"Identity"⟩ (by decide)⟩

/-! ### C3 -/

/-- C3: `IdentityCodec.decode` applied to foreign or corrupt artifacts
propagates the low-level exception instead of a codec-level error: a blob
whose metadata lacks a `"shape"` entry surfaces the dict `KeyError`
raised by `cd["shape"]`, and a blob whose payload length disagrees with
the declared shape surfaces the numpy reshape `ValueError`.  The body of
`decode` contains no error handling at all. -/
theorem identity_decode_low_level_errors :
    IdentityCodec.decode ⟨"img", "other", [0], []⟩ =
      .error (.keyError "shape") ∧
    IdentityCodec.decode ⟨"img", "identity", [0],
        [("shape", .lst [2, 2, 3]), ("dtype", .str "uint8")]⟩ =
      .error (.valueError "cannot reshape array") := by
  exact ⟨rfl, by decide⟩

/-! ### C5 -/

/-- C5: with an explicitly supplied shape `(H, W, C)` with positive `H`
and `W`, `bits_per_pixel` returns `total_size_bytes * 8 / (H * W)`;
consequently the result agrees for any two positive shapes with the same
pixel count, independently of the channel component. -/
theorem bits_per_pixel_explicit_shape (blob : CompressedImage) (h w c : Int)
    (hh : 0 < h) (hw : 0 < w) :
    bits_per_pixel blob (some (h, w, c)) none =
      .ok ((blob.total_size_bytes * 8 : ℚ) / ((h : ℚ) * (w : ℚ))) ∧
    ∀ h2 w2 c2 : Int, 0 < h2 → 0 < w2 → h * w = h2 * w2 →
      bits_per_pixel blob (some (h, w, c)) none =
        bits_per_pixel blob (some (h2, w2, c2)) none := by
  have key : ∀ a b cc : Int, 0 < a → 0 < b →
      bits_per_pixel blob (some (a, b, cc)) none =
        .ok ((blob.total_size_bytes * 8 : ℚ) / ((a : ℚ) * (b : ℚ))) := by
    intro a b cc ha hb
    simp only [bits_per_pixel]
    rw [if_neg]
    push_neg
    exact ⟨ha, hb⟩
  refine ⟨key h w c hh hw, fun h2 w2 c2 hh2 hw2 hprod => ?_⟩
  rw [key h w c hh hw, key h2 w2 c2 hh2 hw2]
  have hq : (h : ℚ) * (w : ℚ) = (h2 : ℚ) * (w2 : ℚ) := by
    exact_mod_cast congrArg (fun z : Int => (z : ℚ)) hprod
  rw [hq]

/-- C5 witness: a one-byte-payload blob at shapes `(2, 3, 3)` and
`(3, 2, 4)`, same pixel count. -/
theorem bits_per_pixel_explicit_shape_witness :
    bits_per_pixel ⟨"i", "c", [1], []⟩ (some (2, 3, 3)) none =
      .ok (((⟨"i", "c", [1], []⟩ : CompressedImage).total_size_bytes * 8 : ℚ) /
        ((2 : ℚ) * (3 : ℚ))) ∧
    bits_per_pixel ⟨"i", "c", [1], []⟩ (some (2, 3, 3)) none =
      bits_per_pixel ⟨"i", "c", [1], []⟩ (some (3, 2, 4)) none :=
  ⟨(bits_per_pixel_explicit_shape ⟨"i", "c", [1], []⟩ 2 3 3 (by decide) (by decide)).1,
    (bits_per_pixel_explicit_shape ⟨"i", "c", [1], []⟩ 2 3 3 (by decide) (by decide)).2
      3 2 4 (by decide) (by decide) (by decide)⟩

/-! ### C4 -/

theorem sortPairs_eq_of_perm (m1 m2 : Meta) (hperm : List.Perm m1 m2)
    (hkeys : (m1.map Prod.fst).Nodup) : sortPairs m1 = sortPairs m2 := by
  have hs1 : List.Sorted metaKeyLe (sortPairs m1) := List.sorted_insertionSort metaKeyLe m1
  have hs2 : List.Sorted metaKeyLe (sortPairs m2) := List.sorted_insertionSort metaKeyLe m2
  have hp1 : List.Perm (sortPairs m1) m1 := List.perm_insertionSort metaKeyLe m1
  have hp2 : List.Perm (sortPairs m2) m2 := List.perm_insertionSort metaKeyLe m2
  have hperm12 : List.Perm (sortPairs m1) (sortPairs m2) :=
    hp1.trans (hperm.trans hp2.symm)
  have hk1 : ((sortPairs m1).map Prod.fst).Nodup :=
    ((hp1.map Prod.fst).nodup_iff).mpr hkeys
  have hk2 : ((sortPairs m2).map Prod.fst).Nodup := by
    have hkeys2 : (m2.map Prod.fst).Nodup := ((hperm.map Prod.fst).nodup_iff).mp hkeys
    exact ((hp2.map Prod.fst).nodup_iff).mpr hkeys2
  have hstrict : ∀ l : Meta, List.Sorted metaKeyLe l → (l.map Prod.fst).Nodup →
      List.Sorted metaKeyLt l := by
    intro l hs hn
    have hn2 : l.Pairwise (fun p q : String × JVal => p.1 ≠ q.1) :=
      List.pairwise_map.mp hn
    exact (hs.and hn2).imp (fun hpq => lt_of_le_of_ne hpq.1 hpq.2)
  exact List.eq_of_perm_of_sorted hperm12 (hstrict _ hs1 hk1) (hstrict _ hs2 hk2)

/-- C4: two metadata dicts holding the same key-value bindings (any
insertion order, keys unique as in every Python dict) have identical
canonical serializations, hence identical
`compression_data_size_bytes`, and identical `total_size_bytes` whenever
the payloads agree. -/
theorem canonical_metadata_order_independent (m1 m2 : Meta) (hperm : List.Perm m1 m2)
    (hkeys : (m1.map Prod.fst).Nodup) :
    serMeta m1 = serMeta m2 ∧
    ∀ c1 c2 : CompressedImage, c1.compression_data = m1 → c2.compression_data = m2 →
      c1.compression_data_size_bytes = c2.compression_data_size_bytes ∧
      (c1.payload = c2.payload → c1.total_size_bytes = c2.total_size_bytes) := by
  have hser : serMeta m1 = serMeta m2 := by
    unfold serMeta
    rw [sortPairs_eq_of_perm m1 m2 hperm hkeys]
  refine ⟨hser, fun c1 c2 h1 h2 => ?_⟩
  have hsize : c1.compression_data_size_bytes = c2.compression_data_size_bytes := by
    unfold CompressedImage.compression_data_size_bytes
    rw [h1, h2, hser]
  refine ⟨hsize, fun hpl => ?_⟩
  unfold CompressedImage.total_size_bytes CompressedImage.payload_size_bytes
  rw [hpl, hsize]

/-- C4 witness: the dicts `a:1, b:2` and `b:2, a:1` of the claim. -/
theorem canonical_metadata_order_independent_witness :
    serMeta [("a", .num 1), ("b", .num 2)] = serMeta [("b", .num 2), ("a", .num 1)] :=
  (canonical_metadata_order_independent
    [("a", .num 1), ("b", .num 2)] [("b", .num 2), ("a", .num 1)]
    (by decide) (by decide)).1

/-! ### C6 -/

theorem zipWith_sq_self_sum (d : List Nat) :
    (List.zipWith (fun x y => ((x : ℚ) - (y : ℚ)) ^ 2) d d).sum = 0 := by
  induction d with
  | nil => simp
  | cons a t ih => simp [ih]

/-- C6: `psnr` on two equal-shape images whose MSE is zero — in particular
whenever the pixel buffers are equal — returns `+inf` and no error; when
the MSE is positive it returns
`20·log10(data_range) − 10·log10(mse)`. -/
theorem psnr_spec (a b : RawImage) (r : ℚ) :
    (a.pixels.shape = b.pixels.shape → a.pixels.data = b.pixels.data →
      mse a b = .ok 0 ∧ psnr a b r = .ok .posInf) ∧
    ∀ m : ℚ, mse a b = .ok m → 0 < m →
      psnr a b r = .ok (.val (20 * Real.logb 10 (r : ℝ) - 10 * Real.logb 10 (m : ℝ))) := by
  constructor
  · intro hsh hdata
    have hmse : mse a b = .ok 0 := by
      unfold mse
      rw [if_neg (by simp [hsh])]
      rw [hdata, zipWith_sq_self_sum]
      simp
    exact ⟨hmse, by simp [psnr, hmse]⟩
  · intro m hm hpos
    simp [psnr, hm, ne_of_gt hpos]

/-- C6 witness: a 1×1 all-zero image against itself (`+inf`) and against a
pixel at distance 3 in one channel (finite value, MSE 3). -/
theorem psnr_spec_witness :
    (mse ⟨⟨[1, 1, 3], "uint8", [0, 0, 0]⟩, "a"⟩ ⟨⟨[1, 1, 3], "uint8", [0, 0, 0]⟩, "a"⟩ = .ok 0 ∧
      psnr ⟨⟨[1, 1, 3], "uint8", [0, 0, 0]⟩, "a"⟩ ⟨⟨[1, 1, 3], "uint8", [0, 0, 0]⟩, "a"⟩ 255 =
        .ok .posInf) ∧
    psnr ⟨⟨[1, 1, 3], "uint8", [0, 0, 0]⟩, "a"⟩ ⟨⟨[1, 1, 3], "uint8", [3, 0, 0]⟩, "b"⟩ 255 =
      .ok (.val (20 * Real.logb 10 ((255 : ℚ) : ℝ) - 10 * Real.logb 10 ((3 : ℚ) : ℝ))) :=
  ⟨(psnr_spec ⟨⟨[1, 1, 3], "uint8", [0, 0, 0]⟩, "a"⟩
      ⟨⟨[1, 1, 3], "uint8", [0, 0, 0]⟩, "a"⟩ 255).1 rfl rfl,
    (psnr_spec ⟨⟨[1, 1, 3], "uint8", [0, 0, 0]⟩, "a"⟩
      ⟨⟨[1, 1, 3], "uint8", [3, 0, 0]⟩, "b"⟩ 255).2 3 (by norm_num [mse]) (by norm_num)⟩

/-! ### C1 -/

/-- C1: for every valid `RawImage` (uint8 `(H, W, 3)` buffer with positive
pixel count and non-blank name) and an empty parameter bag, the identity
codec's encode succeeds, producing exactly the raw-bytes blob with shape
and dtype metadata, and decoding that blob succeeds and returns a
`RawImage` with the same shape, the same dtype and the identical pixel
data `d`, element for element. -/
theorem identity_roundtrip (nm : String) (H W : Nat) (d : List Nat)
    (hname : isBlank nm = false) (hlen : d.length = H * W * 3) (hpos : 0 < H * W) :
    IdentityCodec.encode ⟨⟨⟨[H, W, 3], "uint8", d⟩, nm⟩, []⟩ =
      .ok ⟨nm, "identity", d,
        [("shape", .lst [Int.ofNat H, Int.ofNat W, Int.ofNat 3]), ("dtype", .str "uint8")]⟩ ∧
    IdentityCodec.decode ⟨nm, "identity", d,
        [("shape", .lst [Int.ofNat H, Int.ofNat W, Int.ofNat 3]), ("dtype", .str "uint8")]⟩ =
      .ok ⟨⟨[H, W, 3], "uint8", d⟩, nm ++ "__identity__decoded"⟩ := by
  constructor
  · unfold IdentityCodec.encode mkCompressedImage
    simp only [IdentityCodec.name]
    rw [if_neg (by simp [hname]), if_neg (by decide), if_neg (by omega)]
    simp
  · have hpr : d.length = H * (W * (3 * 1)) := by rw [hlen]; ring
    simp [IdentityCodec.decode, lookupMeta, mkRawImage, isBlank_append, hname, hpr]

/-- C1 witness: a 1×1 image round-trips. -/
theorem identity_roundtrip_witness :
    IdentityCodec.encode ⟨⟨⟨[1, 1, 3], "uint8", [5, 6, 7]⟩, "img"⟩, []⟩ =
      .ok ⟨"img", "identity", [5, 6, 7],
        [("shape", .lst [Int.ofNat 1, Int.ofNat 1, Int.ofNat 3]), ("dtype", .str "uint8")]⟩ ∧
    IdentityCodec.decode ⟨"img", "identity", [5, 6, 7],
        [("shape", .lst [Int.ofNat 1, Int.ofNat 1, Int.ofNat 3]), ("dtype", .str "uint8")]⟩ =
      .ok ⟨⟨[1, 1, 3], "uint8", [5, 6, 7]⟩, "img__identity__decoded"⟩ :=
  identity_roundtrip "img" 1 1 [5, 6, 7] (by decide) (by decide) (by decide)

/-! ### C7 -/

/-- The decidable comparison used in the `changed_pixel_ratio` embedding
agrees with the source's `sqrt(s) > threshold` for every squared distance
`s` and threshold. -/
theorem sqrt_comparison_faithful (s t : ℚ) :
    ((t : ℝ) < Real.sqrt (s : ℝ)) ↔ (t < 0 ∨ t ^ 2 < s) := by
  by_cases ht : t < 0
  · simp only [ht, true_or, iff_true]
    calc (t : ℝ) < 0 := by exact_mod_cast ht
      _ ≤ Real.sqrt (s : ℝ) := Real.sqrt_nonneg _
  · push_neg at ht
    have ht' : (0 : ℝ) ≤ (t : ℝ) := by exact_mod_cast ht
    rw [Real.lt_sqrt ht', show ((t : ℝ) ^ 2) = ((t ^ 2 : ℚ) : ℝ) by push_cast; ring,
      Rat.cast_lt]
    exact (or_iff_right (not_lt.mpr ht)).symm

theorem zipWith_congr_on {α β γ : Type} (f g : α → β → γ) :
    ∀ (l1 : List α) (l2 : List β), (∀ p ∈ l1, ∀ q ∈ l2, f p q = g p q) →
      List.zipWith f l1 l2 = List.zipWith g l1 l2 := by
  intro l1
  induction l1 with
  | nil => intro l2 _; rfl
  | cons a t ih =>
    intro l2 h
    cases l2 with
    | nil => rfl
    | cons b s =>
      simp only [List.zipWith_cons_cons]
      rw [h a (by simp) b (by simp),
        ih s (fun p hp q hq => h p (List.mem_cons_of_mem _ hp) q (List.mem_cons_of_mem _ hq))]

theorem zipWith_mem {α β γ : Type} (f : α → β → γ) :
    ∀ (l1 : List α) (l2 : List β) (x : γ), x ∈ List.zipWith f l1 l2 →
      ∃ a ∈ l1, ∃ b ∈ l2, x = f a b := by
  intro l1
  induction l1 with
  | nil => intro l2 x hx; simp at hx
  | cons a t ih =>
    intro l2 x hx
    cases l2 with
    | nil => simp at hx
    | cons b s =>
      simp only [List.zipWith_cons_cons, List.mem_cons] at hx
      rcases hx with h | h
      · exact ⟨a, by simp, b, by simp, h⟩
      · obtain ⟨p, hp, q, hq, hx⟩ := ih s x h
        exact ⟨p, by simp [hp], q, by simp [hq], hx⟩

theorem chunk3_mem : ∀ (d c : List Nat), c ∈ chunk3 d →
    ∃ x y z, c = [x, y, z] ∧ x ∈ d ∧ y ∈ d ∧ z ∈ d
  | a :: b :: c3 :: rest => by
    intro c hc
    rw [show chunk3 (a :: b :: c3 :: rest) = [a, b, c3] :: chunk3 rest from rfl] at hc
    rcases List.mem_cons.mp hc with h | h
    · exact ⟨a, b, c3, h, by simp, by simp, by simp⟩
    · obtain ⟨x, y, z, hxyz, hx, hy, hz⟩ := chunk3_mem rest c h
      exact ⟨x, y, z, hxyz, by simp [hx], by simp [hy], by simp [hz]⟩
  | [] => by intro c hc; exact absurd hc (by rw [show chunk3 [] = [] from rfl]; simp)
  | [a] => by intro c hc; exact absurd hc (by rw [show chunk3 [a] = [] from rfl]; simp)
  | [a, b] => by intro c hc; exact absurd hc (by rw [show chunk3 [a, b] = [] from rfl]; simp)

theorem chunk3_length : ∀ d : List Nat, (chunk3 d).length = d.length / 3
  | a :: b :: c :: rest => by
    rw [show chunk3 (a :: b :: c :: rest) = [a, b, c] :: chunk3 rest from rfl]
    simp only [List.length_cons]
    rw [chunk3_length rest]
    omega
  | [] => rfl
  | [x] => by rw [show chunk3 [x] = [] from rfl]; simp
  | [x, y] => by rw [show chunk3 [x, y] = [] from rfl]; simp

theorem pixelErrSq_triple (x1 y1 z1 x2 y2 z2 : Nat) :
    pixelErrSq [x1, y1, z1] [x2, y2, z2] =
      ((x1 : ℚ) - x2) ^ 2 + ((y1 : ℚ) - y2) ^ 2 + ((z1 : ℚ) - z2) ^ 2 := by
  simp [pixelErrSq]
  ring

theorem pixelErrSq_pos_iff (x1 y1 z1 x2 y2 z2 : Nat) :
    (0 < pixelErrSq [x1, y1, z1] [x2, y2, z2]) ↔
      ([x1, y1, z1] : List Nat) ≠ [x2, y2, z2] := by
  rw [pixelErrSq_triple]
  constructor
  · intro h hc
    simp only [List.cons.injEq, and_true] at hc
    obtain ⟨h1, h2, h3⟩ := hc
    subst h1; subst h2; subst h3
    simp at h
  · intro hne
    by_contra h
    push_neg at h
    have e1 := sq_nonneg ((x1 : ℚ) - x2)
    have e2 := sq_nonneg ((y1 : ℚ) - y2)
    have e3 := sq_nonneg ((z1 : ℚ) - z2)
    have hx : ((x1 : ℚ) - x2) ^ 2 = 0 := by linarith
    have hy : ((y1 : ℚ) - y2) ^ 2 = 0 := by linarith
    have hz : ((z1 : ℚ) - z2) ^ 2 = 0 := by linarith
    have hx' : x1 = x2 := by
      have := sub_eq_zero.mp (pow_eq_zero_iff (by norm_num : 2 ≠ 0) |>.mp hx)
      exact_mod_cast this
    have hy' : y1 = y2 := by
      have := sub_eq_zero.mp (pow_eq_zero_iff (by norm_num : 2 ≠ 0) |>.mp hy)
      exact_mod_cast this
    have hz' : z1 = z2 := by
      have := sub_eq_zero.mp (pow_eq_zero_iff (by norm_num : 2 ≠ 0) |>.mp hz)
      exact_mod_cast this
    exact hne (by rw [hx', hy', hz'])

theorem pixelErrSq_le_bound (x1 y1 z1 x2 y2 z2 : Nat)
    (h1 : x1 < 256) (h2 : y1 < 256) (h3 : z1 < 256)
    (h4 : x2 < 256) (h5 : y2 < 256) (h6 : z2 < 256) :
    pixelErrSq [x1, y1, z1] [x2, y2, z2] ≤ 3 * 255 ^ 2 := by
  rw [pixelErrSq_triple]
  have c1 : (x1 : ℚ) ≤ 255 := by exact_mod_cast Nat.lt_succ_iff.mp h1
  have c2 : (y1 : ℚ) ≤ 255 := by exact_mod_cast Nat.lt_succ_iff.mp h2
  have c3 : (z1 : ℚ) ≤ 255 := by exact_mod_cast Nat.lt_succ_iff.mp h3
  have c4 : (x2 : ℚ) ≤ 255 := by exact_mod_cast Nat.lt_succ_iff.mp h4
  have c5 : (y2 : ℚ) ≤ 255 := by exact_mod_cast Nat.lt_succ_iff.mp h5
  have c6 : (z2 : ℚ) ≤ 255 := by exact_mod_cast Nat.lt_succ_iff.mp h6
  have n1 : (0 : ℚ) ≤ (x1 : ℚ) := Nat.cast_nonneg x1
  have n2 : (0 : ℚ) ≤ (y1 : ℚ) := Nat.cast_nonneg y1
  have n3 : (0 : ℚ) ≤ (z1 : ℚ) := Nat.cast_nonneg z1
  have n4 : (0 : ℚ) ≤ (x2 : ℚ) := Nat.cast_nonneg x2
  have n5 : (0 : ℚ) ≤ (y2 : ℚ) := Nat.cast_nonneg y2
  have n6 : (0 : ℚ) ≤ (z2 : ℚ) := Nat.cast_nonneg z2
  have s1 : ((x1 : ℚ) - x2) ^ 2 ≤ 255 ^ 2 := sq_le_sq' (by linarith) (by linarith)
  have s2 : ((y1 : ℚ) - y2) ^ 2 ≤ 255 ^ 2 := sq_le_sq' (by linarith) (by linarith)
  have s3 : ((z1 : ℚ) - z2) ^ 2 ≤ 255 ^ 2 := sq_le_sq' (by linarith) (by linarith)
  linarith

/-- C7: for equal-shape `(H, W, 3)` uint8 images, `changed_pixel_ratio`
with threshold `0` is exactly the number of pixel positions differing in
at least one channel over the number of pixel positions, and for any
threshold above `sqrt(3)·255` (the largest possible per-pixel L2 channel
distance) the ratio is exactly `0`. -/
theorem changed_pixel_ratio_spec (a b : RawImage) (H W : Nat)
    (hsa : a.pixels.shape = [H, W, 3]) (hsb : b.pixels.shape = [H, W, 3])
    (hla : a.pixels.data.length = H * W * 3) (hlb : b.pixels.data.length = H * W * 3)
    (hba : ∀ x ∈ a.pixels.data, x < 256) (hbb : ∀ x ∈ b.pixels.data, x < 256)
    (hpos : 0 < H * W) :
    changed_pixel_ratio a b 0 = .ok ((diffPixelCount a b : ℚ) / ((H * W : Nat) : ℚ)) ∧
    ∀ t : ℚ, Real.sqrt 3 * 255 < (t : ℝ) → changed_pixel_ratio a b t = .ok 0 := by
  have hsh : ¬a.pixels.shape ≠ b.pixels.shape := by rw [hsa, hsb]; simp
  have hca : (chunk3 a.pixels.data).length = H * W := by rw [chunk3_length, hla]; omega
  have hcb : (chunk3 b.pixels.data).length = H * W := by rw [chunk3_length, hlb]; omega
  constructor
  · have hflags :
        List.zipWith (fun p q => decide ((0 : ℚ) < 0 ∨ (0 : ℚ) ^ 2 < pixelErrSq p q))
            (chunk3 a.pixels.data) (chunk3 b.pixels.data) =
          List.zipWith (fun p q : List Nat => decide (p ≠ q))
            (chunk3 a.pixels.data) (chunk3 b.pixels.data) := by
      apply zipWith_congr_on
      intro p hp q hq
      obtain ⟨x1, y1, z1, hp1, _, _, _⟩ := chunk3_mem _ p hp
      obtain ⟨x2, y2, z2, hq1, _, _, _⟩ := chunk3_mem _ q hq
      subst hp1; subst hq1
      apply decide_eq_decide.mpr
      rw [show ((0 : ℚ) ^ 2) = 0 by norm_num]
      constructor
      · rintro (h | h)
        · exact absurd h (lt_irrefl 0)
        · exact (pixelErrSq_pos_iff x1 y1 z1 x2 y2 z2).mp h
      · intro h
        exact Or.inr ((pixelErrSq_pos_iff x1 y1 z1 x2 y2 z2).mpr h)
    unfold changed_pixel_ratio
    rw [if_neg hsh, hflags, List.length_zipWith, hca, hcb, min_self]
    rfl
  · intro t ht
    have ht0 : 0 < t := by
      have h0 : (0 : ℝ) < (t : ℝ) := lt_of_le_of_lt (by positivity) ht
      exact_mod_cast h0
    have htsq : (3 * 255 ^ 2 : ℚ) < t ^ 2 := by
      have h1 : (Real.sqrt 3 * 255) * (Real.sqrt 3 * 255) < (t : ℝ) * (t : ℝ) :=
        mul_self_lt_mul_self (by positivity) ht
      have h3 : Real.sqrt 3 * Real.sqrt 3 = 3 := Real.mul_self_sqrt (by norm_num)
      have h2 : (Real.sqrt 3 * 255) * (Real.sqrt 3 * 255) = 3 * 255 ^ 2 := by
        rw [show (Real.sqrt 3 * 255) * (Real.sqrt 3 * 255) =
          (Real.sqrt 3 * Real.sqrt 3) * (255 * 255) by ring, h3]
        norm_num
      rw [h2] at h1
      have h4 : (3 * 255 ^ 2 : ℝ) < (t : ℝ) ^ 2 := by nlinarith [h1]
      exact_mod_cast h4
    have hflags0 :
        List.zipWith (fun p q => decide (t < 0 ∨ t ^ 2 < pixelErrSq p q))
            (chunk3 a.pixels.data) (chunk3 b.pixels.data) =
          List.zipWith (fun _ _ : List Nat => false)
            (chunk3 a.pixels.data) (chunk3 b.pixels.data) := by
      apply zipWith_congr_on
      intro p hp q hq
      obtain ⟨x1, y1, z1, hp1, ha1, ha2, ha3⟩ := chunk3_mem _ p hp
      obtain ⟨x2, y2, z2, hq1, hb1, hb2, hb3⟩ := chunk3_mem _ q hq
      subst hp1; subst hq1
      apply decide_eq_false
      rintro (h | h)
      · exact absurd h (not_lt.mpr ht0.le)
      · have hb := pixelErrSq_le_bound x1 y1 z1 x2 y2 z2
          (hba _ ha1) (hba _ ha2) (hba _ ha3) (hbb _ hb1) (hbb _ hb2) (hbb _ hb3)
        linarith
    unfold changed_pixel_ratio
    rw [if_neg hsh, hflags0]
    have hcount : (List.zipWith (fun _ _ : List Nat => false)
        (chunk3 a.pixels.data) (chunk3 b.pixels.data)).count true = 0 := by
      rw [List.count_eq_zero]
      intro hmem
      obtain ⟨p, _, q, _, hx⟩ := zipWith_mem _ _ _ _ hmem
      simp at hx
    rw [hcount]
    simp

/-- C7 witness: 1×1 images differing in one channel (ratio `1/1` at
threshold `0`), and threshold `442 > sqrt(3)·255 ≈ 441.67` (ratio `0`). -/
theorem changed_pixel_ratio_spec_witness :
    changed_pixel_ratio ⟨⟨[1, 1, 3], "uint8", [0, 0, 0]⟩, "a"⟩
        ⟨⟨[1, 1, 3], "uint8", [1, 0, 0]⟩, "b"⟩ 0 =
      .ok ((diffPixelCount ⟨⟨[1, 1, 3], "uint8", [0, 0, 0]⟩, "a"⟩
          ⟨⟨[1, 1, 3], "uint8", [1, 0, 0]⟩, "b"⟩ : ℚ) / ((1 * 1 : Nat) : ℚ)) ∧
    changed_pixel_ratio ⟨⟨[1, 1, 3], "uint8", [0, 0, 0]⟩, "a"⟩
        ⟨⟨[1, 1, 3], "uint8", [1, 0, 0]⟩, "b"⟩ 442 = .ok 0 := by
  have hthr : Real.sqrt 3 * 255 < ((442 : ℚ) : ℝ) := by
    have hs : Real.sqrt 3 < 442 / 255 := (Real.sqrt_lt' (by norm_num)).mpr (by norm_num)
    push_cast
    nlinarith [hs]
  exact ⟨(changed_pixel_ratio_spec ⟨⟨[1, 1, 3], "uint8", [0, 0, 0]⟩, "a"⟩
      ⟨⟨[1, 1, 3], "uint8", [1, 0, 0]⟩, "b"⟩ 1 1 rfl rfl (by decide) (by decide)
      (by decide) (by decide) (by decide)).1,
    (changed_pixel_ratio_spec ⟨⟨[1, 1, 3], "uint8", [0, 0, 0]⟩, "a"⟩
      ⟨⟨[1, 1, 3], "uint8", [1, 0, 0]⟩, "b"⟩ 1 1 rfl rfl (by decide) (by decide)
      (by decide) (by decide) (by decide)).2 442 hthr⟩
